import Mathlib

/-!
Verification of the cryptographic trust subsystem of the PharmaLync
healthcare platform: key management, field-level authenticated encryption,
three-layer identity-number protection, password and session-token
handling, consent tokens, the QR token codec, and two-tier audit logging.

The TypeScript services are shallowly embedded: byte buffers become lists
of natural numbers, external cryptographic primitives (PBKDF2, HMAC, SHA,
AES-GCM) become parameters recorded in small model structures carrying the
facts the orchestration code relies on (determinism is automatic for Lean
functions; output sizes are recorded as fields), and for the QR codec the
MAC and cipher outputs are represented symbolically, so that equality of a
MAC value coincides with equality of the authenticated data.  Fallible
operations return `Except` or `Option`; thrown JavaScript errors become
error constructors.
-/

namespace Summa

/-- Byte sequences (Node `Buffer`s) modelled as lists of natural numbers. -/
abbrev Bytes := List Nat

/-- The hexadecimal digit character for a value below 16, lowercase as
produced by `Buffer.prototype.toString("hex")`. -/
def hexDigitChar (n : Nat) : Char :=
  if n < 10 then Char.ofNat (48 + n) else Char.ofNat (87 + n)

/-- Hex encoding of one byte: high nibble then low nibble. -/
def hexEncodeByte (b : Nat) : List Char :=
  [hexDigitChar (b / 16), hexDigitChar (b % 16)]

/-- Hex encoding of a byte sequence, as `Buffer.prototype.toString("hex")`. -/
def hexEncode : Bytes → List Char
  | [] => []
  | b :: rest => hexEncodeByte b ++ hexEncode rest

/-- Value of a hexadecimal digit character, `none` for other characters. -/
def hexDigitVal (c : Char) : Option Nat :=
  if 48 ≤ c.toNat ∧ c.toNat ≤ 57 then some (c.toNat - 48)
  else if 97 ≤ c.toNat ∧ c.toNat ≤ 102 then some (c.toNat - 87)
  else if 65 ≤ c.toNat ∧ c.toNat ≤ 70 then some (c.toNat - 55)
  else none

/-- Hex decoding as `Buffer.from(s, "hex")`: consumes pairs of hex digits
and stops at the first invalid character or dangling digit. -/
def hexDecode : List Char → Bytes
  | c1 :: c2 :: rest =>
    match hexDigitVal c1, hexDigitVal c2 with
    | some hi, some lo => (16 * hi + lo) :: hexDecode rest
    | _, _ => []
  | _ => []

theorem hexDigitVal_hexDigitChar : ∀ n, n < 16 → hexDigitVal (hexDigitChar n) = some n := by
  decide

theorem hexDecode_hexEncode (bs : Bytes) (h : ∀ b ∈ bs, b < 256) :
    hexDecode (hexEncode bs) = bs := by
  induction bs with
  | nil => rfl
  | cons b rest ih =>
    have hb : b < 256 := h b (List.mem_cons_self b rest)
    have hhi : b / 16 < 16 := Nat.div_lt_of_lt_mul (by omega)
    have hlo : b % 16 < 16 := Nat.mod_lt _ (by omega)
    have hrest : ∀ x ∈ rest, x < 256 := fun x hx => h x (List.mem_cons_of_mem _ hx)
    simp only [hexEncode, hexEncodeByte, List.cons_append, List.append_eq, List.nil_append,
      hexDecode, hexDigitVal_hexDigitChar _ hhi, hexDigitVal_hexDigitChar _ hlo, ih hrest]
    congr 1
    omega

theorem hexEncode_length (bs : Bytes) : (hexEncode bs).length = 2 * bs.length := by
  induction bs with
  | nil => rfl
  | cons b rest ih =>
    simp only [hexEncode, hexEncodeByte, List.length_append, List.length_cons, ih,
      List.length_nil]
    omega

/-- Characters that can appear in lowercase hex output. -/
def isHexChar (c : Char) : Bool :=
  ((48 ≤ c.toNat ∧ c.toNat ≤ 57) ∨ (97 ≤ c.toNat ∧ c.toNat ≤ 102) : Prop)

theorem isHexChar_hexDigitChar : ∀ n, n < 16 → isHexChar (hexDigitChar n) = true := by
  decide

theorem mem_hexEncode_isHexChar (bs : Bytes) (h : ∀ b ∈ bs, b < 256) :
    ∀ c ∈ hexEncode bs, isHexChar c = true := by
  induction bs with
  | nil => intro c hc; cases hc
  | cons b rest ih =>
    intro c hc
    have hb : b < 256 := h b (List.mem_cons_self b rest)
    have hhi : b / 16 < 16 := Nat.div_lt_of_lt_mul (by omega)
    have hlo : b % 16 < 16 := Nat.mod_lt _ (by omega)
    simp only [hexEncode, hexEncodeByte, List.cons_append, List.nil_append,
      List.mem_cons, List.mem_append] at hc
    rcases hc with h1 | h2 | h3
    · rw [h1]; exact isHexChar_hexDigitChar _ hhi
    · rw [h2]; exact isHexChar_hexDigitChar _ hlo
    · exact ih (fun x hx => h x (List.mem_cons_of_mem _ hx)) c h3

/-- Hex digit characters are never the colon separator used by the
credential storage format. -/
theorem hexDigitChar_ne_colon : ∀ n, n < 16 → hexDigitChar n ≠ Char.ofNat 58 := by
  decide

/-- XOR of two byte sequences, the CTR-mode combination step of AES-GCM. -/
def xorBytes (a b : Bytes) : Bytes := List.zipWith Nat.xor a b

theorem xorBytes_length (a b : Bytes) : (xorBytes a b).length = min a.length b.length := by
  simp [xorBytes]

theorem xorBytes_xorBytes (a b : Bytes) (h : a.length ≤ b.length) :
    xorBytes (xorBytes a b) b = a := by
  induction a generalizing b with
  | nil => rfl
  | cons x xs ih =>
    cases b with
    | nil => simp at h
    | cons y ys =>
      simp only [xorBytes, List.zipWith]
      have hx : Nat.xor (Nat.xor x y) y = x := Nat.xor_cancel_right y x
      have ht := ih ys (by simpa using h)
      simp only [xorBytes] at ht
      rw [hx, ht]

theorem take_length_append (a b : List Nat) : (a ++ b).take a.length = a := by
  simp

theorem drop_length_append (a b : List Nat) : (a ++ b).drop a.length = b := by
  simp

/-! ## KeyManagementService and EncryptionService (backend/src/services) -/

/-- Model of the AES-256-GCM primitive of the node crypto library, in its
CTR-plus-tag structure: a keystream generator and an authentication-tag
function over the ciphertext.  The services under verification rely only on
determinism (automatic for Lean functions) and on the output sizes recorded
here. -/
structure GcmModel where
  keystream : Bytes → Bytes → Nat → Bytes
  tagOf : Bytes → Bytes → Bytes → Bytes
  keystream_length : ∀ k iv n, (keystream k iv n).length = n
  tagOf_length : ∀ k iv ct, (tagOf k iv ct).length = 16

/-- Model of HMAC-SHA256 over byte inputs, used by
`KeyManagementService.deriveUserKey`. -/
structure HmacByteModel where
  hmac : Bytes → Bytes → Bytes

/-- A string as the byte sequence `Buffer.from(s, "utf-8")` produces,
modelled by its code points (an injective stand-in for the UTF-8 bytes). -/
def strBytes (s : String) : Bytes := s.data.map Char.toNat

/-- `KeyManagementService.deriveUserKey`: HKDF-SHA256 with the user id as
the extract salt and `info ++ 0x01` as the single expand block. -/
def deriveUserKey (H : HmacByteModel) (masterKey : Bytes) (userId : String)
    (info : String) : Bytes :=
  let prk := H.hmac (strBytes userId) masterKey
  H.hmac prk (strBytes info ++ [1])

/-- Key selection of `encryptPII`/`decryptPII`: a per-user derived key when
a `userId` is supplied, the master key otherwise. -/
def piiKey (H : HmacByteModel) (masterKey : Bytes) (userId : Option String) : Bytes :=
  match userId with
  | some uid => deriveUserKey H masterKey uid "pharmalync-user-key"
  | none => masterKey

inductive PiiError where
  | emptyData
  | invalidBuffer
  | decryptFailed
deriving DecidableEq

/-- `EncryptionService.encryptPII`: reject empty data, then AES-256-GCM
encrypt with a fresh 16-byte IV (here a parameter, as randomness is
external) and return `IV ‖ AuthTag ‖ Ciphertext`. -/
def encryptPII (G : GcmModel) (key iv data : Bytes) : Except PiiError Bytes :=
  if data = [] then .error .emptyData
  else
    let ct := xorBytes data (G.keystream key iv data.length)
    let tag := G.tagOf key iv ct
    .ok (iv ++ (tag ++ ct))

/-- `EncryptionService.decryptPII`: require at least 32 bytes, split into
IV, tag and ciphertext, verify the tag during decryption and fail when it
does not match. -/
def decryptPII (G : GcmModel) (key buf : Bytes) : Except PiiError Bytes :=
  if buf.length < 32 then .error .invalidBuffer
  else
    let iv := buf.take 16
    let tag := (buf.drop 16).take 16
    let ct := buf.drop 32
    if G.tagOf key iv ct = tag then
      .ok (xorBytes ct (G.keystream key iv ct.length))
    else .error .decryptFailed

/-- C5: for every non-empty plaintext and every key selection (a userId for
derived-key encryption, or none for the master key), decrypting an
encryption under the same key selection returns the original plaintext:
`decryptPII` is a left inverse of `encryptPII`. -/
theorem c5_decryptPII_encryptPII (G : GcmModel) (H : HmacByteModel) (master : Bytes)
    (u : Option String) (iv data : Bytes) (hdata : data ≠ []) (hiv : iv.length = 16) :
    ∃ buf, encryptPII G (piiKey H master u) iv data = .ok buf ∧
      decryptPII G (piiKey H master u) buf = .ok data := by
  set key := piiKey H master u with hkey
  set ks := G.keystream key iv data.length with hks
  set ct := xorBytes data ks with hct
  set tag := G.tagOf key iv ct with htag
  have hkslen : ks.length = data.length := G.keystream_length key iv data.length
  have hctlen : ct.length = data.length := by
    rw [hct, xorBytes_length, hkslen, Nat.min_self]
  have htaglen : tag.length = 16 := G.tagOf_length key iv ct
  refine ⟨iv ++ (tag ++ ct), ?_, ?_⟩
  · simp only [encryptPII, if_neg hdata]
  · have hlen : (iv ++ (tag ++ ct)).length = 32 + data.length := by
      simp [hiv, htaglen, hctlen]; omega
    have hdlen : 0 < data.length := List.length_pos.mpr hdata
    have htake : (iv ++ (tag ++ ct)).take 16 = iv := by
      have := take_length_append iv (tag ++ ct)
      rwa [hiv] at this
    have hdrop16 : (iv ++ (tag ++ ct)).drop 16 = tag ++ ct := by
      have := drop_length_append iv (tag ++ ct)
      rwa [hiv] at this
    have htag16 : ((iv ++ (tag ++ ct)).drop 16).take 16 = tag := by
      rw [hdrop16]
      have := take_length_append tag ct
      rwa [htaglen] at this
    have hdrop32 : (iv ++ (tag ++ ct)).drop 32 = ct := by
      have h32 : (32 : Nat) = 16 + 16 := by norm_num
      rw [h32, ← List.drop_drop, hdrop16]
      have := drop_length_append tag ct
      rwa [htaglen] at this
    simp only [decryptPII, hlen]
    rw [if_neg (by omega)]
    simp only [htake, htag16, hdrop32]
    simp only [if_true]
    rw [hctlen, ← hks, hct, xorBytes_xorBytes data ks (by omega)]

/-- A trivial instantiation of the AES-GCM model, used to evaluate the
services on concrete inputs. -/
def gcmZero : GcmModel where
  keystream := fun _ _ n => List.replicate n 7
  tagOf := fun _ _ _ => List.replicate 16 0
  keystream_length := fun _ _ n => List.length_replicate n 7
  tagOf_length := fun _ _ _ => List.length_replicate 16 0

/-- A trivial instantiation of the byte-level HMAC model. -/
def hmacConcat : HmacByteModel where
  hmac := fun k m => k ++ m

theorem c5_witness :
    ∃ buf, encryptPII gcmZero (piiKey hmacConcat [5] (some "u1")) (List.replicate 16 0) [1, 2, 3] = .ok buf ∧
      decryptPII gcmZero (piiKey hmacConcat [5] (some "u1")) buf = .ok [1, 2, 3] :=
  c5_decryptPII_encryptPII gcmZero hmacConcat [5] (some "u1") (List.replicate 16 0) [1, 2, 3]
    (by decide) (by decide)

/-! ## AadhaarService (three-layer identity-number protection) -/

/-- Model of the two digest primitives the Aadhaar service uses, HMAC-SHA256
keyed with the master key and plain SHA-256, with their output lengths and
byte ranges recorded. -/
structure DigestModel where
  hmacSha256 : Bytes → String → Bytes
  sha256 : String → Bytes
  hmac_length : ∀ k m, (hmacSha256 k m).length = 32
  hmac_lt : ∀ k m, ∀ b ∈ hmacSha256 k m, b < 256
  sha_length : ∀ m, (sha256 m).length = 32
  sha_lt : ∀ m, ∀ b ∈ sha256 m, b < 256

/-- `AadhaarService.validateAadhaarFormat`: the regular expression
`^\d{12}$`. -/
def validateAadhaarFormat (a : String) : Bool :=
  a.length = 12 && a.data.all (fun c => c.isDigit)

inductive AadhaarError where
  | validationError
  | timingLengthError
deriving DecidableEq

/-- `AadhaarService.tokenizeAadhaar`: validate the format, then HMAC-SHA256
the raw value with the master key and keep the first 32 hex characters. -/
def tokenizeAadhaar (D : DigestModel) (masterKey : Bytes) (a : String) :
    Except AadhaarError String :=
  if validateAadhaarFormat a then
    .ok (String.mk ((hexEncode (D.hmacSha256 masterKey a)).take 32))
  else .error .validationError

/-- `AadhaarService.hashAadhaar`: SHA-256 hex digest of the token. -/
def hashAadhaar (D : DigestModel) (masterKey : Bytes) (a : String) :
    Except AadhaarError String :=
  match tokenizeAadhaar D masterKey a with
  | .ok tok => .ok (String.mk (hexEncode (D.sha256 tok)))
  | .error e => .error e

/-- `AadhaarService.verifyAadhaarHash`: recompute the hash and compare with
`crypto.timingSafeEqual`, which raises when the two buffers differ in byte
length; byte equality of UTF-8 encodings coincides with string equality. -/
def verifyAadhaarHash (D : DigestModel) (masterKey : Bytes) (a stored : String) :
    Except AadhaarError Bool :=
  match hashAadhaar D masterKey a with
  | .ok computed =>
    if computed.utf8ByteSize = stored.utf8ByteSize then .ok (computed == stored)
    else .error .timingLengthError
  | .error e => .error e

theorem utf8Size_hexDigitChar : ∀ n, n < 16 → (hexDigitChar n).utf8Size = 1 := by
  decide

theorem utf8ByteSizeGo_hexEncode (bs : Bytes) (h : ∀ b ∈ bs, b < 256) :
    String.utf8ByteSize.go (hexEncode bs) = 2 * bs.length := by
  induction bs with
  | nil => rfl
  | cons b rest ih =>
    have hb : b < 256 := h b (List.mem_cons_self b rest)
    have hhi : b / 16 < 16 := Nat.div_lt_of_lt_mul (by omega)
    have hlo : b % 16 < 16 := Nat.mod_lt _ (by omega)
    have hrest := ih (fun x hx => h x (List.mem_cons_of_mem _ hx))
    simp only [hexEncode, hexEncodeByte, List.cons_append, List.append_eq, List.nil_append,
      String.utf8ByteSize.go, hrest, utf8Size_hexDigitChar _ hhi, utf8Size_hexDigitChar _ hlo,
      List.length_cons]
    omega

theorem utf8ByteSize_mk_hexEncode (bs : Bytes) (h : ∀ b ∈ bs, b < 256) :
    (String.mk (hexEncode bs)).utf8ByteSize = 2 * bs.length :=
  utf8ByteSizeGo_hexEncode bs h

theorem length_mk (l : List Char) : (String.mk l).length = l.length := rfl

/-- C9: identity tokenization is deterministic and format-validated — on a
valid 12-digit identifier both of two calls return one identical pseudonym
that is 32 lowercase-hex characters long, and on an input that is not
exactly 12 digits (such as the 5-digit string below) a `ValidationError` is
raised instead. -/
theorem c9_tokenize_deterministic_and_validated (D : DigestModel) (masterKey : Bytes)
    (a : String) (hv : validateAadhaarFormat a = true) :
    (∃ t, tokenizeAadhaar D masterKey a = .ok t ∧ tokenizeAadhaar D masterKey a = .ok t ∧
      t.length = 32 ∧ (∀ c ∈ t.data, isHexChar c = true)) ∧
    tokenizeAadhaar D masterKey "12345" = .error .validationError := by
  constructor
  · refine ⟨String.mk ((hexEncode (D.hmacSha256 masterKey a)).take 32), ?_, ?_, ?_, ?_⟩
    · simp [tokenizeAadhaar, hv]
    · simp [tokenizeAadhaar, hv]
    · rw [length_mk, List.length_take, hexEncode_length, D.hmac_length]
      decide
    · intro c hc
      exact mem_hexEncode_isHexChar _ (D.hmac_lt masterKey a) c (List.mem_of_mem_take hc)
  · rfl

/-- A trivial instantiation of the digest model, used to evaluate the
Aadhaar service on concrete inputs. -/
def digestZero : DigestModel where
  hmacSha256 := fun _ _ => List.replicate 32 1
  sha256 := fun _ => List.replicate 32 2
  hmac_length := fun _ _ => List.length_replicate 32 1
  hmac_lt := fun _ _ b hb => by
    have := List.eq_of_mem_replicate hb
    omega
  sha_length := fun _ => List.length_replicate 32 2
  sha_lt := fun _ b hb => by
    have := List.eq_of_mem_replicate hb
    omega

theorem c9_witness :
    (∃ t, tokenizeAadhaar digestZero [3] "490154203517" = .ok t ∧
      tokenizeAadhaar digestZero [3] "490154203517" = .ok t ∧
      t.length = 32 ∧ (∀ c ∈ t.data, isHexChar c = true)) ∧
    tokenizeAadhaar digestZero [3] "12345" = .error .validationError :=
  c9_tokenize_deterministic_and_validated digestZero [3] "490154203517" (by decide)

/-- C10: `verifyAadhaarHash` returns a boolean only when the stored hash has
exactly the byte length of the computed 64-character hex digest; for a valid
12-digit raw identifier and a stored hash of any other byte length it raises
(`crypto.timingSafeEqual` rejects buffers of unequal length) instead of
returning `false`. -/
theorem c10_verifyAadhaarHash_length (D : DigestModel) (masterKey : Bytes)
    (a stored : String) (hv : validateAadhaarFormat a = true) :
    (stored.utf8ByteSize ≠ 64 → verifyAadhaarHash D masterKey a stored = .error .timingLengthError) ∧
    (stored.utf8ByteSize = 64 → ∃ b, verifyAadhaarHash D masterKey a stored = .ok b) := by
  have htok : tokenizeAadhaar D masterKey a =
      .ok (String.mk ((hexEncode (D.hmacSha256 masterKey a)).take 32)) := by
    simp [tokenizeAadhaar, hv]
  set tok := String.mk ((hexEncode (D.hmacSha256 masterKey a)).take 32) with htokdef
  have hhash : hashAadhaar D masterKey a = .ok (String.mk (hexEncode (D.sha256 tok))) := by
    simp only [hashAadhaar, htok]
  have hsize : (String.mk (hexEncode (D.sha256 tok))).utf8ByteSize = 64 := by
    rw [utf8ByteSize_mk_hexEncode _ (D.sha_lt tok), D.sha_length]
  constructor
  · intro hne
    simp only [verifyAadhaarHash, hhash, hsize]
    rw [if_neg (fun hcontra => hne hcontra.symm)]
  · intro heq
    refine ⟨String.mk (hexEncode (D.sha256 tok)) == stored, ?_⟩
    simp only [verifyAadhaarHash, hhash, hsize]
    rw [if_pos (heq.symm)]

theorem c10_witness :
    (verifyAadhaarHash digestZero [3] "490154203517" "tooShort" = .error .timingLengthError) ∧
    (∃ b, verifyAadhaarHash digestZero [3] "490154203517"
      (String.mk (List.replicate 64 (Char.ofNat 97))) = .ok b) := by
  have h1 := (c10_verifyAadhaarHash_length digestZero [3] "490154203517" "tooShort"
    (by decide)).1 (by decide)
  have h2 := (c10_verifyAadhaarHash_length digestZero [3] "490154203517"
    (String.mk (List.replicate 64 (Char.ofNat 97))) (by decide)).2 (by decide)
  exact ⟨h1, h2⟩

/-! ## AuthService (password hashing and JWT session tokens) -/

/-- JavaScript `String.prototype.split` with a one-character separator. -/
def splitOnChar (sep : Char) : List Char → List (List Char)
  | [] => [[]]
  | c :: rest =>
    let r := splitOnChar sep rest
    if c = sep then [] :: r
    else (c :: r.headD []) :: r.tail

theorem splitOnChar_not_mem (sep : Char) (l : List Char) (h : sep ∉ l) :
    splitOnChar sep l = [l] := by
  induction l with
  | nil => rfl
  | cons c rest ih =>
    have hc : c ≠ sep := fun hcs => h (hcs ▸ List.mem_cons_self c rest)
    have hr := ih (fun hm => h (List.mem_cons_of_mem _ hm))
    simp [splitOnChar, hr, hc]

theorem splitOnChar_append_sep (sep : Char) (a b : List Char) (ha : sep ∉ a) :
    splitOnChar sep (a ++ sep :: b) = a :: splitOnChar sep b := by
  induction a with
  | nil => simp [splitOnChar]
  | cons c a2 ih =>
    have hc : c ≠ sep := fun hcs => ha (hcs ▸ List.mem_cons_self c a2)
    have hr := ih (fun hm => ha (List.mem_cons_of_mem _ hm))
    simp [splitOnChar, hr, hc]

theorem colon_not_mem_hexEncode (bs : Bytes) (h : ∀ b ∈ bs, b < 256) :
    Char.ofNat 58 ∉ hexEncode bs := by
  intro hmem
  have := mem_hexEncode_isHexChar bs h _ hmem
  simp [isHexChar] at this

/-- Model of PBKDF2-SHA512 with the configured iteration count, as used by
`AuthService.hashPassword`: 64 output bytes for a password and a salt. -/
structure PbkdfModel where
  pbkdf2 : String → Bytes → Bytes
  len64 : ∀ pw s, (pbkdf2 pw s).length = 64
  lt256 : ∀ pw s, ∀ b ∈ pbkdf2 pw s, b < 256

/-- `AuthService.hashPassword`: derive 64 bytes from the password and a
random 16-byte salt (a parameter here) and store `saltHex:hashHex`. -/
def hashPassword (P : PbkdfModel) (pw : String) (salt : Bytes) : String :=
  String.mk (hexEncode salt ++ Char.ofNat 58 :: hexEncode (P.pbkdf2 pw salt))

/-- `AuthService.verifyPassword`: split the stored value on the colon, fail
closed on a missing or empty component, re-derive with the stored salt and
compare with `crypto.timingSafeEqual`, mapping its unequal-length exception
to `false`. -/
def verifyPassword (P : PbkdfModel) (pw stored : String) : Bool :=
  match splitOnChar (Char.ofNat 58) stored.data with
  | saltHex :: hashHex :: _ =>
    if saltHex = [] ∨ hashHex = [] then false
    else
      let salt := hexDecode saltHex
      let derived := P.pbkdf2 pw salt
      let storedBuf := hexDecode hashHex
      let computedBuf := hexDecode (hexEncode derived)
      if storedBuf.length = computedBuf.length then storedBuf == computedBuf else false
  | _ => false

/-- A stored credential with a missing or empty salt or hash component (the
JavaScript falsiness check on the two destructured split components). -/
def malformedStored (stored : String) : Bool :=
  match splitOnChar (Char.ofNat 58) stored.data with
  | saltHex :: hashHex :: _ => saltHex == [] || hashHex == []
  | _ => true

/-- C8: a password verifies against its own hash; a password whose derived
key differs (any other password, under PBKDF2 collision-freeness at this
salt) is rejected; and a stored value with a missing or empty salt or hash
component yields `false` rather than an error. -/
theorem c8_password_hash_verify (P : PbkdfModel) (pw : String) (salt : Bytes)
    (hlen : salt.length = 16) (h256 : ∀ b ∈ salt, b < 256) :
    verifyPassword P pw (hashPassword P pw salt) = true ∧
    (∀ wrongPw, P.pbkdf2 wrongPw salt ≠ P.pbkdf2 pw salt →
      verifyPassword P wrongPw (hashPassword P pw salt) = false) ∧
    (∀ stored, malformedStored stored = true → verifyPassword P pw stored = false) := by
  have hsplit : splitOnChar (Char.ofNat 58) (hashPassword P pw salt).data =
      [hexEncode salt, hexEncode (P.pbkdf2 pw salt)] := by
    show splitOnChar (Char.ofNat 58)
      (hexEncode salt ++ Char.ofNat 58 :: hexEncode (P.pbkdf2 pw salt)) = _
    rw [splitOnChar_append_sep _ _ _ (colon_not_mem_hexEncode salt h256),
      splitOnChar_not_mem _ _ (colon_not_mem_hexEncode _ (P.lt256 pw salt))]
  have hsaltne : hexEncode salt ≠ [] := by
    intro hnil
    have := hexEncode_length salt
    rw [hnil, hlen] at this
    simp at this
  have hderne : ∀ q : String, hexEncode (P.pbkdf2 q salt) ≠ [] := by
    intro q hnil
    have := hexEncode_length (P.pbkdf2 q salt)
    rw [hnil, P.len64] at this
    simp at this
  have hsaltdec : hexDecode (hexEncode salt) = salt := hexDecode_hexEncode salt h256
  refine ⟨?_, ?_, ?_⟩
  · simp only [verifyPassword, hsplit]
    rw [if_neg (by push_neg; exact ⟨hsaltne, hderne pw⟩)]
    simp [hsaltdec]
  · intro wrongPw hne
    simp only [verifyPassword, hsplit]
    rw [if_neg (by push_neg; exact ⟨hsaltne, hderne pw⟩)]
    simp only [hsaltdec]
    have hd1 : hexDecode (hexEncode (P.pbkdf2 pw salt)) = P.pbkdf2 pw salt :=
      hexDecode_hexEncode _ (P.lt256 pw salt)
    have hd2 : hexDecode (hexEncode (P.pbkdf2 wrongPw salt)) = P.pbkdf2 wrongPw salt :=
      hexDecode_hexEncode _ (P.lt256 wrongPw salt)
    rw [hd1, hd2, if_pos (by rw [P.len64, P.len64])]
    exact beq_eq_false_iff_ne.mpr (fun heq => hne (heq.symm))
  · intro stored hmal
    simp only [verifyPassword, malformedStored] at hmal ⊢
    rcases hsp : splitOnChar (Char.ofNat 58) stored.data with _ | ⟨s, _ | ⟨hsx, rest2⟩⟩ <;>
      simp_all

/-- A trivial instantiation of the PBKDF2 model, keyed on password length so
that distinct-length passwords have distinct derived keys. -/
def pbkdfByLength : PbkdfModel where
  pbkdf2 := fun pw _ => List.replicate 64 ((pw.length + 1) % 256)
  len64 := fun pw _ => List.length_replicate 64 _
  lt256 := fun pw _ b hb => by
    have := List.eq_of_mem_replicate hb
    omega

theorem c8_witness :
    verifyPassword pbkdfByLength "pw" (hashPassword pbkdfByLength "pw" (List.replicate 16 0)) = true ∧
    verifyPassword pbkdfByLength "x" (hashPassword pbkdfByLength "pw" (List.replicate 16 0)) = false ∧
    verifyPassword pbkdfByLength "pw" "nocolon" = false := by
  have h := c8_password_hash_verify pbkdfByLength "pw" (List.replicate 16 0)
    (by decide) (fun b hb => by
      have := List.eq_of_mem_replicate hb
      omega)
  exact ⟨h.1, h.2.1 "x" (by decide), h.2.2 "nocolon" (by decide)⟩

/-- The payload of an access token: userId, email, role. -/
structure JwtClaims where
  userId : String
  email : String
  role : String
deriving DecidableEq

/-- A signed JWT, symbolically: the secret it was signed with stands for the
signature, and the registered claims are those the sign call set. -/
structure AccessJwt where
  claims : JwtClaims
  secret : String
  alg : String
  iss : Option String
  aud : Option String
  iat : Nat
  exp : Nat
deriving DecidableEq

/-- `AuthService.generateAccessToken`: `jwt.sign(payload, secret,
{ expiresIn: "15m" })` — no issuer or audience option, so the token carries
no `iss` or `aud` claim; HS256 is the library default for a string secret. -/
def generateAccessToken (secret : String) (p : JwtClaims) (now : Nat) : AccessJwt :=
  { claims := p, secret := secret, alg := "HS256", iss := none, aud := none,
    iat := now, exp := now + 15 * 60 }

inductive AuthError where
  | tokenExpired
  | invalidToken
deriving DecidableEq

/-- `AuthService.verifyAccessToken`: `jwt.verify` with pinned issuer
`pharmalync`, audience `pharmalync-api` and algorithms `[HS256]`; the
library checks the signature, then expiry, then audience, then issuer, and
a missing or differing claim raises `JsonWebTokenError`, mapped by the
service to the `Invalid token` error (expiry maps to `Token expired`). -/
def verifyAccessToken (secret : String) (tok : AccessJwt) (now : Nat) :
    Except AuthError JwtClaims :=
  if tok.secret ≠ secret ∨ tok.alg ≠ "HS256" then .error .invalidToken
  else if tok.exp ≤ now then .error .tokenExpired
  else if tok.aud ≠ some "pharmalync-api" then .error .invalidToken
  else if tok.iss ≠ some "pharmalync" then .error .invalidToken
  else .ok tok.claims

/-- C1 (code bug): a token produced by `generateAccessToken` is rejected by
`verifyAccessToken` even before its 15-minute expiry, because the verifier
pins an issuer and audience that the issuer never signs into the token; the
round trip yields the `Invalid token` error instead of the claims. -/
theorem c1_roundTrip_rejected (secret : String) (p : JwtClaims) (now t : Nat)
    (ht : t < now + 15 * 60) :
    verifyAccessToken secret (generateAccessToken secret p now) t =
      .error .invalidToken := by
  simp only [generateAccessToken, verifyAccessToken]
  rw [if_neg (by simp), if_neg (by omega), if_pos (by simp)]

theorem c1_witness :
    verifyAccessToken "s" (generateAccessToken "s" ⟨"u1", "a@b.c", "PATIENT"⟩ 0) 0 =
      .error .invalidToken :=
  c1_roundTrip_rejected "s" ⟨"u1", "a@b.c", "PATIENT"⟩ 0 0 (by decide)

/-! ## ConsentService (scope-limited, time-bound consent grants) -/

inductive ConsentScope where
  | viewMedicalRecords
  | viewAadhaar
  | updateRecords
deriving DecidableEq

/-- A persisted consent grant (the prisma `consent` row).  Times are in
milliseconds since the epoch, matching `Date.now()`. -/
structure Consent where
  id : String
  patientId : String
  grantedTo : String
  scopes : List ConsentScope
  expiresAt : Nat
  revoked : Bool
deriving DecidableEq

/-- The consent store (the prisma table), with read-your-writes access. -/
abbrev ConsentStore := List Consent

def findConsent (store : ConsentStore) (id : String) : Option Consent :=
  store.find? (fun c => c.id == id)

/-- A signed consent JWT, symbolically: the secret it was signed with stands
for the signature; issuer, audience, algorithm and expiry are the options
`generateConsentToken` passes to `jwt.sign`. -/
structure ConsentJwt where
  consentId : String
  patientId : String
  grantedTo : String
  scopes : List ConsentScope
  secret : String
  iss : String
  aud : String
  alg : String
  exp : Nat
deriving DecidableEq

/-- `ConsentService.generateConsentToken`: persist a fresh grant with
`revoked = false` and sign a token carrying the grant id, pinned to issuer
`pharmalync`, audience `pharmalync-consent` and HS256, expiring together
with the grant. -/
def generateConsentToken (store : ConsentStore) (secret patientId grantedTo : String)
    (scopes : List ConsentScope) (expiryMinutes now : Nat) (newId : String) :
    ConsentJwt × String × ConsentStore :=
  let expiresAt := now + expiryMinutes * 60 * 1000
  let consent : Consent :=
    { id := newId, patientId := patientId, grantedTo := grantedTo,
      scopes := scopes, expiresAt := expiresAt, revoked := false }
  let tok : ConsentJwt :=
    { consentId := newId, patientId := patientId, grantedTo := grantedTo,
      scopes := scopes, secret := secret, iss := "pharmalync",
      aud := "pharmalync-consent", alg := "HS256", exp := expiresAt }
  (tok, newId, store ++ [consent])

inductive ConsentError where
  | consentTokenExpired
  | invalidConsentToken
  | consentNotFound
  | consentRevoked
  | consentExpired
  | insufficientScopes
deriving DecidableEq

/-- The structured result `verifyConsentToken` returns. -/
structure ConsentResult where
  valid : Bool
  consentId : Option String := none
  patientId : Option String := none
  grantedTo : Option String := none
  scopes : Option (List ConsentScope) := none
  error : Option ConsentError := none
deriving DecidableEq

/-- `ConsentService.verifyConsentToken`: verify the JWT signature, pinned
issuer/audience/algorithm and embedded expiry, then re-check the persisted
grant: missing, revoked (`Consent has been revoked`), expired as currently
stored, and finally the required-scopes inclusion. -/
def verifyConsentToken (store : ConsentStore) (secret : String) (tok : ConsentJwt)
    (required : List ConsentScope) (now : Nat) : ConsentResult :=
  if tok.secret ≠ secret ∨ tok.iss ≠ "pharmalync" ∨
      tok.aud ≠ "pharmalync-consent" ∨ tok.alg ≠ "HS256" then
    { valid := false, error := some .invalidConsentToken }
  else if tok.exp ≤ now then
    { valid := false, error := some .consentTokenExpired }
  else
    match findConsent store tok.consentId with
    | none => { valid := false, error := some .consentNotFound }
    | some consent =>
      if consent.revoked then
        { valid := false, error := some .consentRevoked }
      else if consent.expiresAt < now then
        { valid := false, error := some .consentExpired }
      else if required.all (fun s => consent.scopes.contains s) then
        { valid := true, consentId := some consent.id,
          patientId := some consent.patientId, grantedTo := some consent.grantedTo,
          scopes := some consent.scopes }
      else
        { valid := false, error := some .insufficientScopes }

/-- `ConsentService.revokeConsent`: set `revoked := true` on the grant. -/
def revokeConsent (store : ConsentStore) (consentId : String) : ConsentStore :=
  store.map (fun c => if c.id = consentId then { c with revoked := true } else c)

theorem findConsent_append_fresh (store : ConsentStore) (c : Consent)
    (hfresh : findConsent store c.id = none) :
    findConsent (store ++ [c]) c.id = some c := by
  induction store with
  | nil => simp [findConsent]
  | cons d rest ih =>
    simp only [findConsent, List.find?] at hfresh ⊢
    cases hd : (d.id == c.id) with
    | true => rw [hd] at hfresh; simp at hfresh
    | false =>
      rw [hd] at hfresh
      simp only [List.cons_append, List.find?, hd]
      exact ih hfresh

theorem findConsent_revoke (store : ConsentStore) (id : String) (c : Consent)
    (hfind : findConsent store id = some c) (hcid : c.id = id) :
    findConsent (revokeConsent store id) id = some { c with revoked := true } := by
  induction store with
  | nil => simp [findConsent] at hfind
  | cons d rest ih =>
    by_cases hdid : d.id = id
    · have hdb : (d.id == id) = true := by simpa using hdid
      simp only [findConsent, List.find?, hdb] at hfind
      have hdc : d = c := by injection hfind
      subst hdc
      have hrevid : ({ d with revoked := true } : Consent).id = id := hdid
      have hrevb : (({ d with revoked := true } : Consent).id == id) = true := by
        simpa using hrevid
      simp only [revokeConsent, List.map, if_pos hdid, findConsent, List.find?, hrevb]
    · have hdb : (d.id == id) = false := by simpa using hdid
      simp only [findConsent, List.find?, hdb] at hfind
      have hrest := ih hfind
      simp only [revokeConsent, List.map, if_neg hdid, findConsent, List.find?, hdb]
      simpa [revokeConsent, findConsent] using hrest

/-- C2: after `revokeConsent` flips the persisted grant to revoked, a
`verifyConsentToken` call on a token for that grant whose signature is
valid and whose embedded expiry has not elapsed returns an invalid result
with the revoked reason (`Consent has been revoked`), because verification
re-checks the persisted record and not only the token claims. -/
theorem c2_verify_after_revoke (store : ConsentStore) (secret patientId grantedTo : String)
    (scopes required : List ConsentScope) (expiryMinutes now t : Nat) (newId : String)
    (hfresh : findConsent store newId = none)
    (ht : t < now + expiryMinutes * 60 * 1000) :
    verifyConsentToken
      (revokeConsent (generateConsentToken store secret patientId grantedTo scopes
        expiryMinutes now newId).2.2 newId)
      secret
      (generateConsentToken store secret patientId grantedTo scopes expiryMinutes now newId).1
      required t =
    { valid := false, error := some .consentRevoked } := by
  have hf : findConsent
      (store ++ [Consent.mk newId patientId grantedTo scopes
        (now + expiryMinutes * 60 * 1000) false])
      newId = some (Consent.mk newId patientId grantedTo scopes
        (now + expiryMinutes * 60 * 1000) false) :=
    findConsent_append_fresh store _ hfresh
  have hrev := findConsent_revoke _ newId _ hf rfl
  have hne : ¬(now + expiryMinutes * 60 * 1000 ≤ t) := by omega
  simp [verifyConsentToken, generateConsentToken, hne, hrev]

theorem c2_witness :
    verifyConsentToken
      (revokeConsent (generateConsentToken [] "s" "p1" "d1" [ConsentScope.viewAadhaar]
        60 0 "c1").2.2 "c1")
      "s"
      (generateConsentToken [] "s" "p1" "d1" [ConsentScope.viewAadhaar] 60 0 "c1").1
      [ConsentScope.viewAadhaar] 1000 =
    { valid := false, error := some .consentRevoked } :=
  c2_verify_after_revoke [] "s" "p1" "d1" [ConsentScope.viewAadhaar] [ConsentScope.viewAadhaar]
    60 0 1000 "c1" (by decide) (by decide)

/-! ## AuditService and BlockchainService (two-tier audit logging) -/

/-- The canonical fields `hashAuditData` serializes and hashes. -/
structure AuditCore where
  userId : String
  action : String
  resourceType : String
  resourceId : Option String
  timestamp : Nat
deriving DecidableEq

/-- Model of SHA-256 over the JSON serialization of the canonical audit
fields, as a hex string of the recorded length. -/
structure AuditHashModel where
  shaHex : AuditCore → String
  length64 : ∀ c, (shaHex c).length = 64

/-- `AuditService.hashAuditData`: the JSON serialization defaults a missing
`resourceId` to the empty string before hashing. -/
def hashAuditData (M : AuditHashModel) (c : AuditCore) : String :=
  M.shaHex { c with resourceId := some (c.resourceId.getD "") }

/-- A local audit row (the prisma `auditLog` table); `txHash` is the
back-filled blockchain transaction hash, absent until tier-2 succeeds. -/
structure AuditRec where
  id : String
  core : AuditCore
  txHash : Option String
deriving DecidableEq

abbrev AuditStore := List AuditRec

/-- `AuditService.getAuditLog`. -/
def getAuditLog (store : AuditStore) (id : String) : Option AuditRec :=
  store.find? (fun r => r.id == id)

/-- The designated critical actions requiring blockchain logging. -/
def isCriticalAction (action : String) : Bool :=
  action == "VIEW_AADHAAR" || action == "CREATE_PATIENT" || action == "UPDATE_PATIENT" ||
  action == "MEDICINE_DISPENSE" || action == "PRESCRIPTION_CREATE"

/-- Outcome of the asynchronous `logAuditToBlockchain` submission: a
transaction hash, or a failure (timeout, rejection) that the service
catches and logs without rethrowing. -/
inductive LedgerSubmit where
  | confirmed (tx : String)
  | failed
deriving DecidableEq

/-- `AuditService.logAudit`: always create the tier-1 row first and return
its id; for a critical action additionally run the tier-2 blockchain
submission, back-filling `txHash` on success and swallowing the error
(`.catch`) on failure so the caller is never affected. -/
def logAudit (_M : AuditHashModel) (store : AuditStore) (userId action resourceType : String)
    (resourceId : Option String) (newId : String) (ts : Nat) (ledger : LedgerSubmit) :
    String × AuditStore :=
  let core : AuditCore :=
    { userId := userId, action := action, resourceType := resourceType,
      resourceId := resourceId, timestamp := ts }
  let row : AuditRec := { id := newId, core := core, txHash := none }
  let store1 := store ++ [row]
  let store2 :=
    if isCriticalAction action then
      match ledger with
      | .confirmed tx => store1.map (fun r => if r.id = newId then { r with txHash := some tx } else r)
      | .failed => store1
    else store1
  (newId, store2)

/-- What the ledger lookup inside `BlockchainService.verifyAudit` would
yield: a stored hash, an unreachable ledger (the RPC call throws), or an
uninitialized blockchain service. -/
inductive LedgerFetch where
  | stored (hash : String)
  | unreachable
  | uninitialized
deriving DecidableEq

/-- `BlockchainService.verifyAudit`: returns the stored data hash; returns
the empty string when the service is uninitialized, and also when the
contract call throws — the error is caught, logged to the console and
swallowed, so this function never raises to its caller. -/
def blockchainVerifyAudit (f : LedgerFetch) : String :=
  match f with
  | .stored h => h
  | .unreachable => ""
  | .uninitialized => ""

inductive IntegrityError where
  | auditLogNotFound
  | notLoggedToBlockchain
  | hashMismatch
  | blockchainVerificationFailed
deriving DecidableEq

/-- The structured result of `verifyAuditIntegrity`. -/
structure IntegrityResult where
  valid : Bool
  localHash : String
  blockchainHash : Option String := none
  error : Option IntegrityError := none
deriving DecidableEq

/-- `AuditService.verifyAuditIntegrity`: recompute the local hash; report
`Not logged to blockchain` (informational, `valid := true`) when the entry
has no ledger reference; otherwise compare with the ledger hash, reporting
`Hash mismatch - data may be tampered` when they differ.  The catch branch
that would report `Blockchain verification failed` distinctly
(`blockchainVerificationFailed`) is unreachable, because
`blockchainVerifyAudit` never raises. -/
def verifyAuditIntegrity (M : AuditHashModel) (store : AuditStore) (f : LedgerFetch)
    (auditId : String) : IntegrityResult :=
  match getAuditLog store auditId with
  | none => { valid := false, localHash := "", error := some .auditLogNotFound }
  | some r =>
    let localHash := hashAuditData M r.core
    match r.txHash with
    | none => { valid := true, localHash := localHash, error := some .notLoggedToBlockchain }
    | some _ =>
      let bh := blockchainVerifyAudit f
      if localHash = bh then
        { valid := true, localHash := localHash, blockchainHash := some bh }
      else
        { valid := false, localHash := localHash, blockchainHash := some bh,
          error := some .hashMismatch }

/-- C6 (code bug): when the audit entry carries a ledger reference and the
ledger is unreachable, `verifyAuditIntegrity` reports the tampering signal
(`Hash mismatch - data may be tampered`) rather than a distinct
unreachability error: the swallowed exception inside
`BlockchainService.verifyAudit` surfaces as an empty stored hash, which
never equals the 64-character local hash. -/
theorem c6_unreachable_reported_as_mismatch (M : AuditHashModel) (store : AuditStore)
    (auditId : String) (r : AuditRec) (tx : String)
    (hfind : getAuditLog store auditId = some r) (htx : r.txHash = some tx) :
    verifyAuditIntegrity M store .unreachable auditId =
      { valid := false, localHash := hashAuditData M r.core, blockchainHash := some "",
        error := some .hashMismatch } := by
  have hlen : (hashAuditData M r.core).length = 64 := M.length64 _
  have hne : hashAuditData M r.core ≠ "" := by
    intro hcontra
    rw [hcontra] at hlen
    simp [String.length] at hlen
  simp only [verifyAuditIntegrity, hfind, htx, blockchainVerifyAudit]
  rw [if_neg hne]

/-- A trivial instantiation of the audit hash model. -/
def auditHashConst : AuditHashModel where
  shaHex := fun _ => String.mk (List.replicate 64 (Char.ofNat 97))
  length64 := fun _ => by
    show (String.mk (List.replicate 64 (Char.ofNat 97))).length = 64
    rw [length_mk, List.length_replicate]

theorem c6_witness :
    verifyAuditIntegrity auditHashConst
      [AuditRec.mk "a1" (AuditCore.mk "u1" "VIEW_AADHAAR" "PATIENT" none 5) (some "0xtx")]
      .unreachable "a1" =
    { valid := false,
      localHash := hashAuditData auditHashConst (AuditCore.mk "u1" "VIEW_AADHAAR" "PATIENT" none 5),
      blockchainHash := some "", error := some .hashMismatch } :=
  c6_unreachable_reported_as_mismatch auditHashConst
    [AuditRec.mk "a1" (AuditCore.mk "u1" "VIEW_AADHAAR" "PATIENT" none 5) (some "0xtx")]
    "a1" (AuditRec.mk "a1" (AuditCore.mk "u1" "VIEW_AADHAAR" "PATIENT" none 5) (some "0xtx"))
    "0xtx" (by decide) rfl

theorem getAuditLog_append_fresh (store : AuditStore) (r : AuditRec)
    (hfresh : getAuditLog store r.id = none) :
    getAuditLog (store ++ [r]) r.id = some r := by
  induction store with
  | nil => simp [getAuditLog]
  | cons d rest ih =>
    simp only [getAuditLog, List.find?] at hfresh ⊢
    cases hd : (d.id == r.id) with
    | true => rw [hd] at hfresh; simp at hfresh
    | false =>
      rw [hd] at hfresh
      simp only [List.cons_append, List.find?, hd]
      exact ih hfresh

theorem getAuditLog_backfill (store : AuditStore) (newId : String) (core : AuditCore)
    (tx : String) (hfresh : getAuditLog store newId = none) :
    getAuditLog ((store ++ [AuditRec.mk newId core none]).map
      (fun r => if r.id = newId then { r with txHash := some tx } else r)) newId =
    some (AuditRec.mk newId core (some tx)) := by
  induction store with
  | nil => simp [getAuditLog, List.find?]
  | cons d rest ih =>
    simp only [getAuditLog, List.find?] at hfresh
    cases hd : (d.id == newId) with
    | true => rw [hd] at hfresh; simp at hfresh
    | false =>
      rw [hd] at hfresh
      have hdne : ¬(d.id = newId) := by simpa using hd
      simp only [List.cons_append, List.map, getAuditLog, List.find?, if_neg hdne, hd]
      simpa [getAuditLog] using ih hfresh

/-- C7: `logAudit` always creates and returns a retrievable tier-1 entry,
for every ledger outcome — the tier-2 step is fire-and-forget and its
failure never changes the returned id or removes the local row — and when
the submission failed, `verifyAuditIntegrity` on that entry returns the
informational not-ledger-anchored result (`valid := true` with the local
hash and `Not logged to blockchain`) rather than failing. -/
theorem c7_logAudit_tier1_always (M : AuditHashModel) (store : AuditStore)
    (userId action resourceType : String) (resourceId : Option String)
    (newId : String) (ts : Nat) (ledger : LedgerSubmit) (f : LedgerFetch)
    (hfresh : getAuditLog store newId = none) :
    (logAudit M store userId action resourceType resourceId newId ts ledger).1 = newId ∧
    (∃ r, getAuditLog (logAudit M store userId action resourceType resourceId newId ts ledger).2
        newId = some r ∧
      r.core = AuditCore.mk userId action resourceType resourceId ts) ∧
    (ledger = .failed →
      verifyAuditIntegrity M
        (logAudit M store userId action resourceType resourceId newId ts ledger).2 f newId =
      { valid := true,
        localHash := hashAuditData M (AuditCore.mk userId action resourceType resourceId ts),
        error := some .notLoggedToBlockchain }) := by
  have hrow : getAuditLog
      (store ++ [AuditRec.mk newId (AuditCore.mk userId action resourceType resourceId ts) none])
      newId = some (AuditRec.mk newId (AuditCore.mk userId action resourceType resourceId ts) none) :=
    getAuditLog_append_fresh store _ hfresh
  have hfailed : (logAudit M store userId action resourceType resourceId newId ts .failed).2 =
      store ++ [AuditRec.mk newId (AuditCore.mk userId action resourceType resourceId ts) none] := by
    simp only [logAudit]
    split <;> rfl
  refine ⟨rfl, ?_, ?_⟩
  · cases ledger with
    | failed =>
      rw [hfailed]
      exact ⟨_, hrow, rfl⟩
    | confirmed tx =>
      by_cases hc : isCriticalAction action = true
      · have h2 : (logAudit M store userId action resourceType resourceId newId ts
            (.confirmed tx)).2 =
            (store ++ [AuditRec.mk newId (AuditCore.mk userId action resourceType resourceId ts)
              none]).map (fun r => if r.id = newId then { r with txHash := some tx } else r) := by
          simp only [logAudit]
          rw [if_pos hc]
        rw [h2]
        exact ⟨_, getAuditLog_backfill store newId _ tx hfresh, rfl⟩
      · have h2 : (logAudit M store userId action resourceType resourceId newId ts
            (.confirmed tx)).2 =
            store ++ [AuditRec.mk newId (AuditCore.mk userId action resourceType resourceId ts)
              none] := by
          simp only [logAudit]
          rw [if_neg hc]
        rw [h2]
        exact ⟨_, hrow, rfl⟩
  · intro hled
    subst hled
    rw [hfailed]
    simp [verifyAuditIntegrity, hrow, hashAuditData]

theorem c7_witness :
    (logAudit auditHashConst [] "u1" "VIEW_AADHAAR" "PATIENT" none "a2" 5 .failed).1 = "a2" ∧
    (∃ r, getAuditLog
        (logAudit auditHashConst [] "u1" "VIEW_AADHAAR" "PATIENT" none "a2" 5 .failed).2
        "a2" = some r ∧
      r.core = AuditCore.mk "u1" "VIEW_AADHAAR" "PATIENT" none 5) ∧
    (LedgerSubmit.failed = .failed →
      verifyAuditIntegrity auditHashConst
        (logAudit auditHashConst [] "u1" "VIEW_AADHAAR" "PATIENT" none "a2" 5 .failed).2
        .unreachable "a2" =
      { valid := true,
        localHash := hashAuditData auditHashConst
          (AuditCore.mk "u1" "VIEW_AADHAAR" "PATIENT" none 5),
        error := some .notLoggedToBlockchain }) :=
  c7_logAudit_tier1_always auditHashConst [] "u1" "VIEW_AADHAAR" "PATIENT" none "a2" 5
    .failed .unreachable rfl

/-! ## QrSecurityService (sign-then-encrypt QR token codec) -/

/-- A JSON value appearing in QR payload objects. -/
inductive JVal where
  | str (s : String)
  | num (n : Nat)
deriving DecidableEq

/-- A JSON object as an ordered association list, JavaScript-style: keys
are unique in objects built by the code under verification. -/
abbrev JObj := List (String × JVal)

def objGet (o : JObj) (k : String) : Option JVal :=
  (o.find? (fun p => p.1 == k)).map (fun p => p.2)

/-- JavaScript property assignment as performed by spread-plus-literal
`\x7b...data, k: v\x7d`: an existing key keeps its position with the new
value, a new key is appended. -/
def objSet (o : JObj) (k : String) (v : JVal) : JObj :=
  if o.any (fun p => p.1 == k) then
    o.map (fun p => if p.1 == k then (k, v) else p)
  else o ++ [(k, v)]

/-- The HMAC-SHA256 subkey derivations of the QR service, symbolically: a
derived key is the pair of the master key and the context string. -/
def qrTokenKey (master : Bytes) (resourceType : String) : Bytes × String :=
  (master, "QR_TOKEN_" ++ resourceType)

def qrSignKey (master : Bytes) (resourceType : String) : Bytes × String :=
  (master, "QR_SIGN_" ++ resourceType)

/-- An AES-256-GCM ciphertext of the serialized payload, symbolically: it
determines (and is determined by) the key, IV and payload that produced
it, which is the ideal-cipher reading of GCM. -/
structure QrCipher where
  key : Bytes × String
  iv : Bytes
  payload : JObj
deriving DecidableEq

/-- A GCM authentication tag, symbolically. -/
structure QrAuthTag where
  key : Bytes × String
  iv : Bytes
  payload : JObj
deriving DecidableEq

/-- An HMAC-SHA512 signature over `iv ‖ tag ‖ ciphertext`, symbolically:
two signatures are equal exactly when key and signed components are, which
is the ideal-MAC reading of HMAC. -/
structure QrSignature where
  key : Bytes × String
  iv : Bytes
  tag : QrAuthTag
  ct : QrCipher
deriving DecidableEq

/-- The four hex-encoded components serialized into the base64url JSON
wire format. -/
structure QrPackage where
  iv : Bytes
  tag : QrAuthTag
  encrypted : QrCipher
  signature : QrSignature
deriving DecidableEq

/-- What parsing a scanned token yields: the four components, or a
structurally malformed token (base64/JSON/destructuring failure). -/
inductive QrToken where
  | wellFormed (p : QrPackage)
  | malformed
deriving DecidableEq

/-- The augmented payload `generateSecureToken` encrypts: the input data
with `nonce` and `timestamp` assigned on top (overwriting any fields of
those names, as the JavaScript spread-plus-literal object does). -/
def qrAugment (data : JObj) (nonce : String) (ts : Nat) : JObj :=
  objSet (objSet data "nonce" (JVal.str nonce)) "timestamp" (JVal.num ts)

/-- `QrSecurityService.generateSecureToken` up to serialization: derive
the two subkeys, augment the payload with nonce and timestamp (parameters
here, as randomness and the clock are external), GCM-encrypt under the
token key with a fresh 12-byte IV, and sign `iv ‖ tag ‖ ciphertext` under
the independent sign key. -/
def genQrPackage (data : JObj) (resourceType : String) (master : Bytes)
    (nonce : String) (ts : Nat) (iv : Bytes) : QrPackage :=
  let tk := qrTokenKey master resourceType
  let sk := qrSignKey master resourceType
  let payload := qrAugment data nonce ts
  let ct : QrCipher := { key := tk, iv := iv, payload := payload }
  let tag : QrAuthTag := { key := tk, iv := iv, payload := payload }
  { iv := iv, tag := tag, encrypted := ct,
    signature := { key := sk, iv := iv, tag := tag, ct := ct } }

def generateSecureToken (data : JObj) (resourceType : String) (master : Bytes)
    (nonce : String) (ts : Nat) (iv : Bytes) : QrToken :=
  .wellFormed (genQrPackage data resourceType master nonce ts iv)

inductive QrStepError where
  | parseFailure
  | securityAlert
  | gcmAuthFailure
deriving DecidableEq

/-- The single error `verifyToken` surfaces to its caller
(`INVALID_QR: Unable to verify authenticity of the scanned code`). -/
inductive QrOuterError where
  | invalidQr
deriving DecidableEq

/-- The body of `QrSecurityService.verifyToken` before its catch-all:
parse (malformed structure raises), recompute the signature over the
parsed components and compare in constant time (mismatch raises the
tamper-specific `SECURITY_ALERT` error), then decrypt with tag
verification (a tag failure raises from `decipher.final`). -/
def verifyTokenSteps (tok : QrToken) (resourceType : String) (master : Bytes) :
    Except QrStepError JObj :=
  match tok with
  | .malformed => .error .parseFailure
  | .wellFormed p =>
    let tk := qrTokenKey master resourceType
    let sk := qrSignKey master resourceType
    let expected : QrSignature := { key := sk, iv := p.iv, tag := p.tag, ct := p.encrypted }
    if p.signature = expected then
      if p.encrypted.key = tk ∧ p.encrypted.iv = p.iv ∧
          p.tag = { key := tk, iv := p.iv, payload := p.encrypted.payload } then
        .ok p.encrypted.payload
      else .error .gcmAuthFailure
    else .error .securityAlert

/-- `QrSecurityService.verifyToken`: the whole body runs inside one
try/catch whose handler rethrows a single generic `INVALID_QR` error, so
every internal failure reaches the caller as the same error. -/
def verifyToken (tok : QrToken) (resourceType : String) (master : Bytes) :
    Except QrOuterError JObj :=
  match verifyTokenSteps tok resourceType master with
  | .ok d => .ok d
  | .error _ => .error .invalidQr

theorem objGet_append_single (o : JObj) (k : String) (v : JVal)
    (h : o.any (fun p => p.1 == k) = false) :
    objGet (o ++ [(k, v)]) k = some v := by
  induction o with
  | nil => simp [objGet]
  | cons a rest ih =>
    simp only [List.any_cons, Bool.or_eq_false_iff] at h
    simp only [List.cons_append, objGet, List.find?, h.1]
    simpa [objGet] using ih h.2

theorem objGet_map_set (o : JObj) (k : String) (v : JVal)
    (h : o.any (fun p => p.1 == k) = true) :
    objGet (o.map (fun p => if p.1 == k then (k, v) else p)) k = some v := by
  induction o with
  | nil => simp at h
  | cons a rest ih =>
    by_cases ha : (a.1 == k) = true
    · simp [objGet, List.find?, ha]
    · have ha2 : (a.1 == k) = false := by simpa using ha
      simp only [List.any_cons, ha2, Bool.false_or] at h
      simp only [List.map, objGet, List.find?, ha2, Bool.false_eq_true, if_false]
      simpa [objGet] using ih h

theorem objGet_objSet_self (o : JObj) (k : String) (v : JVal) :
    objGet (objSet o k v) k = some v := by
  unfold objSet
  cases h : o.any (fun p => p.1 == k) with
  | true =>
    simp only [eq_self_iff_true, if_true]
    exact objGet_map_set o k v h
  | false =>
    simp only [Bool.false_eq_true, if_false]
    exact objGet_append_single o k v h

theorem objGet_append_single_ne (o : JObj) (k k2 : String) (v : JVal) (hne : k2 ≠ k) :
    objGet (o ++ [(k, v)]) k2 = objGet o k2 := by
  have hkk : (k == k2) = false := beq_eq_false_iff_ne.mpr (fun h => hne h.symm)
  induction o with
  | nil => simp [objGet, List.find?, hkk]
  | cons a rest ih =>
    cases ha : (a.1 == k2) with
    | true => simp [objGet, List.find?, ha]
    | false =>
      simp only [List.cons_append, objGet, List.find?, ha]
      simpa [objGet] using ih

theorem objGet_map_set_ne (o : JObj) (k k2 : String) (v : JVal) (hne : k2 ≠ k) :
    objGet (o.map (fun p => if p.1 == k then (k, v) else p)) k2 = objGet o k2 := by
  have hkk : (k == k2) = false := beq_eq_false_iff_ne.mpr (fun h => hne h.symm)
  induction o with
  | nil => rfl
  | cons a rest ih =>
    by_cases ha : (a.1 == k) = true
    · have ha1 : a.1 = k := by simpa using ha
      have hak2 : (a.1 == k2) = false := by rw [ha1]; exact hkk
      simp only [List.map, objGet, List.find?, ha, if_true, hkk, hak2]
      simpa [objGet] using ih
    · have ha2 : (a.1 == k) = false := by simpa using ha
      cases hak2 : (a.1 == k2) with
      | true => simp [objGet, List.find?, ha2, hak2]
      | false =>
        simp only [List.map, objGet, List.find?, ha2, Bool.false_eq_true, if_false, hak2]
        simpa [objGet] using ih

theorem objGet_objSet_ne (o : JObj) (k k2 : String) (v : JVal) (hne : k2 ≠ k) :
    objGet (objSet o k v) k2 = objGet o k2 := by
  unfold objSet
  cases h : o.any (fun p => p.1 == k) with
  | true =>
    simp only [eq_self_iff_true, if_true]
    exact objGet_map_set_ne o k k2 v hne
  | false =>
    simp only [Bool.false_eq_true, if_false]
    exact objGet_append_single_ne o k k2 v hne

theorem verifyTokenSteps_gen (data : JObj) (rt : String) (master : Bytes)
    (nonce : String) (ts : Nat) (iv : Bytes) :
    verifyTokenSteps (generateSecureToken data rt master nonce ts iv) rt master =
      .ok (qrAugment data nonce ts) := by
  simp [generateSecureToken, genQrPackage, verifyTokenSteps]

theorem verifyToken_error_of_steps (tok : QrToken) (rt : String) (master : Bytes)
    (e : QrStepError) (h : verifyTokenSteps tok rt master = .error e) :
    verifyToken tok rt master = .error .invalidQr := by
  simp [verifyToken, h]

theorem verifyTokenSteps_sigMismatch (p : QrPackage) (rt : String) (master : Bytes)
    (h : p.signature ≠ { key := qrSignKey master rt, iv := p.iv, tag := p.tag, ct := p.encrypted }) :
    verifyTokenSteps (.wellFormed p) rt master = .error .securityAlert := by
  simp only [verifyTokenSteps]
  rw [if_neg h]

instance {ε α : Type} [DecidableEq ε] [DecidableEq α] : DecidableEq (Except ε α) := fun x y =>
  match x, y with
  | .ok a, .ok b =>
    if h : a = b then isTrue (by rw [h]) else isFalse (fun hc => h (by injection hc))
  | .error a, .error b =>
    if h : a = b then isTrue (by rw [h]) else isFalse (fun hc => h (by injection hc))
  | .ok _, .error _ => isFalse (fun hc => Except.noConfusion hc)
  | .error _, .ok _ => isFalse (fun hc => Except.noConfusion hc)

/-- C3 as amended: the body of `verifyToken` does raise distinct internal
errors — malformed structure fails at the parse step, and a well-formed
package whose signature differs from the recomputed one fails with the
tamper-specific `SECURITY_ALERT` error, two different failures — but the
surrounding catch-all rethrows the one generic `INVALID_QR` error for
every internal failure, so the caller observes the same error for both
and cannot distinguish them. -/
theorem c3_internal_distinction_collapsed (rt : String) (master : Bytes) :
    verifyTokenSteps .malformed rt master = .error .parseFailure ∧
    (∀ p : QrPackage,
      p.signature ≠ { key := qrSignKey master rt, iv := p.iv, tag := p.tag, ct := p.encrypted } →
      verifyTokenSteps (.wellFormed p) rt master = .error .securityAlert) ∧
    QrStepError.parseFailure ≠ QrStepError.securityAlert ∧
    (∀ tok e, verifyTokenSteps tok rt master = .error e →
      verifyToken tok rt master = .error .invalidQr) := by
  refine ⟨rfl, ?_, by decide, ?_⟩
  · intro p hne
    exact verifyTokenSteps_sigMismatch p rt master hne
  · intro tok e h
    exact verifyToken_error_of_steps tok rt master e h

/-- A demonstration package and a copy whose signature was not produced
with the service's sign key. -/
def qrPkgDemo : QrPackage := genQrPackage [] "MEDICINE" [0] "n0" 0 [1]

def qrPkgTampered : QrPackage :=
  { qrPkgDemo with
    signature := QrSignature.mk (qrSignKey [7] "MEDICINE") [1] qrPkgDemo.tag
      qrPkgDemo.encrypted }

theorem c3_counterexample :
    verifyTokenSteps QrToken.malformed "MEDICINE" [0] = .error .parseFailure ∧
    verifyTokenSteps (.wellFormed qrPkgTampered) "MEDICINE" [0] = .error .securityAlert ∧
    verifyToken QrToken.malformed "MEDICINE" [0] =
      verifyToken (.wellFormed qrPkgTampered) "MEDICINE" [0] := by
  decide

def qrPkgW : QrPackage :=
  { genQrPackage [] "P" [2] "n2" 1 [5] with
    signature := QrSignature.mk (qrSignKey [8] "P") [5] (genQrPackage [] "P" [2] "n2" 1 [5]).tag
      (genQrPackage [] "P" [2] "n2" 1 [5]).encrypted }

theorem c3_witness :
    verifyTokenSteps (.wellFormed qrPkgW) "P" [2] = .error .securityAlert ∧
    verifyToken (.wellFormed qrPkgW) "P" [2] = .error .invalidQr := by
  have h := c3_internal_distinction_collapsed "P" [2]
  have hs := h.2.1 qrPkgW (by decide)
  exact ⟨hs, h.2.2.2 _ _ hs⟩

/-- C4 as amended: the round trip returns the augmented payload — every
field of the input payload other than `nonce` and `timestamp` reappears
with the same value, those two being overwritten by the added random nonce
and current timestamp — and a change to any single parsed component of the
token (IV, auth tag, ciphertext or signature), which is what an
in-component single-character mutation of the serialized token produces,
makes `verifyToken` fail rather than return altered data; a mutation that
breaks the structure entirely also fails. -/
theorem c4_roundTrip_and_mutation (data : JObj) (rt : String) (master : Bytes)
    (nonce : String) (ts : Nat) (iv : Bytes) :
    verifyToken (generateSecureToken data rt master nonce ts iv) rt master =
      .ok (qrAugment data nonce ts) ∧
    (∀ k v, k ≠ "nonce" → k ≠ "timestamp" → objGet data k = some v →
      objGet (qrAugment data nonce ts) k = some v) ∧
    objGet (qrAugment data nonce ts) "nonce" = some (JVal.str nonce) ∧
    objGet (qrAugment data nonce ts) "timestamp" = some (JVal.num ts) ∧
    (∀ iv2, iv2 ≠ iv →
      verifyToken (.wellFormed { genQrPackage data rt master nonce ts iv with iv := iv2 })
        rt master = .error .invalidQr) ∧
    (∀ tag2, tag2 ≠ (genQrPackage data rt master nonce ts iv).tag →
      verifyToken (.wellFormed { genQrPackage data rt master nonce ts iv with tag := tag2 })
        rt master = .error .invalidQr) ∧
    (∀ ct2, ct2 ≠ (genQrPackage data rt master nonce ts iv).encrypted →
      verifyToken (.wellFormed { genQrPackage data rt master nonce ts iv with encrypted := ct2 })
        rt master = .error .invalidQr) ∧
    (∀ sig2, sig2 ≠ (genQrPackage data rt master nonce ts iv).signature →
      verifyToken (.wellFormed { genQrPackage data rt master nonce ts iv with signature := sig2 })
        rt master = .error .invalidQr) ∧
    verifyToken QrToken.malformed rt master = .error .invalidQr := by
  refine ⟨?_, ?_, ?_, ?_, ?_, ?_, ?_, ?_, rfl⟩
  · simp only [verifyToken, verifyTokenSteps_gen]
  · intro k v hkn hkt hget
    rw [qrAugment, objGet_objSet_ne _ _ _ _ hkt, objGet_objSet_ne _ _ _ _ hkn]
    exact hget
  · rw [qrAugment, objGet_objSet_ne _ _ _ _ (by decide), objGet_objSet_self]
  · rw [qrAugment, objGet_objSet_self]
  · intro iv2 hne
    exact verifyToken_error_of_steps _ _ _ .securityAlert
      (verifyTokenSteps_sigMismatch _ _ _
        (fun hcontra => hne ((congrArg QrSignature.iv hcontra).symm)))
  · intro tag2 hne
    exact verifyToken_error_of_steps _ _ _ .securityAlert
      (verifyTokenSteps_sigMismatch _ _ _
        (fun hcontra => hne ((congrArg QrSignature.tag hcontra).symm)))
  · intro ct2 hne
    exact verifyToken_error_of_steps _ _ _ .securityAlert
      (verifyTokenSteps_sigMismatch _ _ _
        (fun hcontra => hne ((congrArg QrSignature.ct hcontra).symm)))
  · intro sig2 hne
    exact verifyToken_error_of_steps _ _ _ .securityAlert
      (verifyTokenSteps_sigMismatch _ _ _ (fun hcontra => hne hcontra))

theorem c4_counterexample :
    verifyToken (generateSecureToken [("nonce", JVal.str "abc")] "MEDICINE" [0] "ff" 5 [2])
      "MEDICINE" [0] =
      .ok [("nonce", JVal.str "ff"), ("timestamp", JVal.num 5)] ∧
    objGet [("nonce", JVal.str "ff"), ("timestamp", JVal.num 5)] "nonce" ≠
      some (JVal.str "abc") := by
  decide

theorem c4_witness :
    verifyToken (generateSecureToken [("k", JVal.str "v")] "PRESCRIPTION" [3] "n1" 7 [4])
      "PRESCRIPTION" [3] = .ok (qrAugment [("k", JVal.str "v")] "n1" 7) ∧
    objGet (qrAugment [("k", JVal.str "v")] "n1" 7) "k" = some (JVal.str "v") ∧
    verifyToken
      (.wellFormed { genQrPackage [("k", JVal.str "v")] "PRESCRIPTION" [3] "n1" 7 [4] with iv := [9] })
      "PRESCRIPTION" [3] = .error .invalidQr := by
  have h := c4_roundTrip_and_mutation [("k", JVal.str "v")] "PRESCRIPTION" [3] "n1" 7 [4]
  exact ⟨h.1, h.2.1 "k" (JVal.str "v") (by decide) (by decide) (by decide),
    h.2.2.2.2.1 [9] (by decide)⟩

end Summa
